import Mathlib

/-!
# Verification of the Online-Fix Store desktop app (main process)

Shallow embedding of the Electron main-process logic:
the Steam app-list catalog cache (`isCacheValid`, `getSteamAppList`,
the `get-steam-applist` IPC handler), the HTTP download promise with
one-hop redirect handling (shared by `download-extract-fix` and
`download-bypass`), the multi-strategy archive extraction chain,
the appID install-source resolver, the recursive copy, and the
temp-workspace lifecycle of the `download-extract-fix` pipeline.
Machine-level details that the logic never branches on (byte buffers,
real wall-clock, the actual zip format) are abstracted into
environment parameters; every branch of the embedded code follows the
JavaScript source.
-/

namespace OnlineFix

/-! ## Catalog cache (Steam app list)

`AppList` is the parse result of the catalog JSON: the sequence of
`(appid, name)` pairs at `data.applist.apps`.  A cache file on disk is
modelled by its last-modified time (`mtime`, milliseconds) and its
content; since the code only ever runs the content through
`JSON.parse` (and writes it with `JSON.stringify`), content is
modelled by its parse outcome: `valid data` or `corrupt`. -/

abbrev AppList := List (Nat × String)

inductive CacheContent where
  | valid (data : AppList)
  | corrupt
deriving DecidableEq, Repr

structure CacheFile where
  mtime : Nat
  content : CacheContent
deriving DecidableEq, Repr

/-- Errors a lookup can surface: a `JSON.parse` failure, a
filesystem read failure, or a network/fetch failure message. -/
inductive JsError where
  | parseError
  | ioError
  | fetchError (msg : String)
deriving DecidableEq, Repr

/-- `CACHE_DURATION = 7 * 24 * 60 * 60 * 1000` — 7 days in milliseconds. -/
def CACHE_DURATION : Nat := 7 * 24 * 60 * 60 * 1000

/-- Environment of one `getSteamAppList` call: the current time
(`Date.now()`), the cache file on disk (`none` when absent), and the
outcome `fetchSteamAppList()` would have (its promise resolving with
parsed data or rejecting with an error message). -/
structure CacheEnv where
  now : Nat
  cacheFile : Option CacheFile
  fetchResult : Except String AppList

/-- `isCacheValid()`: the file exists and `Date.now() - mtime < CACHE_DURATION`.
(JS computes a possibly negative age; a future `mtime` yields a valid
cache there, and truncated `Nat` subtraction yields age `0 < CACHE_DURATION`
here, the same verdict.) -/
def isCacheValid (now : Nat) (cacheFile : Option CacheFile) : Bool :=
  match cacheFile with
  | none => false
  | some f => decide (now - f.mtime < CACHE_DURATION)

/-- Result of one `getSteamAppList` call: the value returned or error
thrown, the cache file left on disk, whether `fetchSteamAppList` was
invoked, and (ghost instrumentation) whether the returned data was
obtained by reading the cache file (either the fresh-read return or
the catch-block fallback), as opposed to being the freshly fetched
data. -/
structure LookupResult where
  result : Except JsError AppList
  cacheAfter : Option CacheFile
  fetchAttempted : Bool
  servedFromCache : Bool

/-- The `catch` block of `getSteamAppList`: if the cache file exists,
re-read it and return `JSON.parse` of it (a parse failure here throws
out of the function); otherwise rethrow the original error. -/
def steamAppListCatch (env : CacheEnv) (e : JsError) (fetched : Bool) : LookupResult :=
  match env.cacheFile with
  | some f =>
    match f.content with
    | .valid d => ⟨.ok d, env.cacheFile, fetched, true⟩
    | .corrupt => ⟨.error .parseError, env.cacheFile, fetched, false⟩
  | none => ⟨.error e, env.cacheFile, fetched, false⟩

/-- The fetch branch of `getSteamAppList`: `await fetchSteamAppList()`;
on success write the cache file (`writeFileSync`, which stamps the
file with the current time) and return the data; a rejection lands in
the catch block. -/
def steamAppListFetch (env : CacheEnv) : LookupResult :=
  match env.fetchResult with
  | .ok d => ⟨.ok d, some ⟨env.now, .valid d⟩, true, false⟩
  | .error m => steamAppListCatch env (.fetchError m) true

/-- The cache-read branch of `getSteamAppList` (taken when
`isCacheValid()` holds): `readFileSync` then `JSON.parse`; a missing
file or parse failure throws into the catch block. -/
def steamAppListRead (env : CacheEnv) : LookupResult :=
  match env.cacheFile with
  | some f =>
    match f.content with
    | .valid d => ⟨.ok d, env.cacheFile, false, true⟩
    | .corrupt => steamAppListCatch env .parseError false
  | none => steamAppListCatch env .ioError false

/-- `getSteamAppList()`: if `isCacheValid()` read and return the
cache, else fetch fresh data and persist it; any thrown error is
handled by the catch block (`steamAppListCatch`). -/
def getSteamAppList (env : CacheEnv) : LookupResult :=
  if isCacheValid env.now env.cacheFile then
    steamAppListRead env
  else
    steamAppListFetch env

/-- Result object of the `get-steam-applist` IPC handler.  On success
the handler returns `{success, apps, totalApps, cached}` where
`cached` is a FRESH evaluation of `isCacheValid()` made after
`getSteamAppList` has completed (hence against the post-lookup cache
file); on error it returns `{success: false, error, apps: {}}` (no
`cached` field, modelled as `false`). -/
structure HandlerResult where
  success : Bool
  apps : AppList
  totalApps : Nat
  cached : Bool
  errorMsg : Option JsError

/-- The `appMap` conversion done by the handler: `forEach` assignment
`appMap[app.appid] = app.name`, so a later pair overwrites an earlier
one with the same id. -/
def buildAppMap (apps : AppList) : Nat → Option String :=
  apps.foldl (fun m p => fun k => if k = p.1 then some p.2 else m k) (fun _ => none)

/-- The `get-steam-applist` IPC handler. -/
def getSteamAppListHandler (env : CacheEnv) : HandlerResult :=
  let r := getSteamAppList env
  match r.result with
  | .ok data => ⟨true, data, data.length, isCacheValid env.now r.cacheAfter, none⟩
  | .error e => ⟨false, [], 0, false, some e⟩

/-! ## Theorems about the catalog cache -/

theorem isCacheValid_some (now : Nat) (f : CacheFile) :
    isCacheValid now (some f) = decide (now - f.mtime < CACHE_DURATION) := rfl

theorem isCacheValid_none (now : Nat) : isCacheValid now none = false := rfl

theorem getSteamAppList_of_valid (env : CacheEnv)
    (h : isCacheValid env.now env.cacheFile = true) :
    getSteamAppList env = steamAppListRead env := by
  simp [getSteamAppList, h]

theorem getSteamAppList_of_invalid (env : CacheEnv)
    (h : isCacheValid env.now env.cacheFile = false) :
    getSteamAppList env = steamAppListFetch env := by
  simp [getSteamAppList, h]

/-- C2: if the cache file exists and its age is `< 7` days, the lookup
returns the parsed cached data and performs no network fetch; if its
age is `≥ 7` days and the remote fetch succeeds, the lookup returns
the fetched data and overwrites the cache file with it. -/
theorem c2_cache_window (env : CacheEnv) :
    (∀ f d, env.cacheFile = some f → env.now - f.mtime < CACHE_DURATION →
      f.content = .valid d →
      (getSteamAppList env).result = .ok d ∧ (getSteamAppList env).fetchAttempted = false) ∧
    (∀ f d, env.cacheFile = some f → CACHE_DURATION ≤ env.now - f.mtime →
      env.fetchResult = .ok d →
      (getSteamAppList env).result = .ok d ∧ (getSteamAppList env).fetchAttempted = true ∧
      (getSteamAppList env).cacheAfter = some ⟨env.now, .valid d⟩) := by
  constructor
  · intro f d hf hage hc
    have hv : isCacheValid env.now env.cacheFile = true := by
      rw [hf, isCacheValid_some]
      simpa using hage
    have hg : getSteamAppList env = ⟨.ok d, some f, false, true⟩ := by
      rw [getSteamAppList_of_valid env hv]
      simp [steamAppListRead, hf, hc]
    rw [hg]
    exact ⟨rfl, rfl⟩
  · intro f d hf hage hfetch
    have hv : isCacheValid env.now env.cacheFile = false := by
      rw [hf, isCacheValid_some]
      simp
      omega
    have hg : getSteamAppList env = ⟨.ok d, some ⟨env.now, .valid d⟩, true, false⟩ := by
      rw [getSteamAppList_of_invalid env hv]
      simp [steamAppListFetch, hfetch]
    rw [hg]
    exact ⟨rfl, rfl, rfl⟩

/-- Witness for C2 at concrete inputs: a 5 ms old valid cache is served
without fetching. -/
theorem c2_cache_window_witness :
    (getSteamAppList ⟨10, some ⟨5, .valid [(440, "tf2")]⟩, .error "net"⟩).result
      = .ok [(440, "tf2")] ∧
    (getSteamAppList ⟨10, some ⟨5, .valid [(440, "tf2")]⟩, .error "net"⟩).fetchAttempted
      = false :=
  (c2_cache_window ⟨10, some ⟨5, .valid [(440, "tf2")]⟩, .error "net"⟩).1
    ⟨5, .valid [(440, "tf2")]⟩ [(440, "tf2")] rfl (by decide) rfl

/-- C3: a stale cache with a failing fetch is returned as a success
(the fetch was still attempted and the data came from the cache file);
with no cache file and a failing fetch, the lookup propagates the
failure, and the IPC handler turns it into a failure result. -/
theorem c3_stale_fallback (env : CacheEnv) :
    (∀ f d m, env.cacheFile = some f → CACHE_DURATION ≤ env.now - f.mtime →
      f.content = .valid d → env.fetchResult = .error m →
      (getSteamAppList env).result = .ok d ∧ (getSteamAppList env).fetchAttempted = true ∧
      (getSteamAppList env).servedFromCache = true) ∧
    (∀ m, env.cacheFile = none → env.fetchResult = .error m →
      (getSteamAppList env).result = .error (.fetchError m) ∧
      (getSteamAppListHandler env).success = false) := by
  constructor
  · intro f d m hf hage hc hfetch
    have hv : isCacheValid env.now env.cacheFile = false := by
      rw [hf, isCacheValid_some]
      simp
      omega
    have hg : getSteamAppList env = ⟨.ok d, some f, true, true⟩ := by
      rw [getSteamAppList_of_invalid env hv]
      simp [steamAppListFetch, hfetch, steamAppListCatch, hf, hc]
    rw [hg]
    exact ⟨rfl, rfl, rfl⟩
  · intro m hf hfetch
    have hv : isCacheValid env.now env.cacheFile = false := by
      rw [hf, isCacheValid_none]
    have hg : getSteamAppList env = ⟨.error (.fetchError m), none, true, false⟩ := by
      rw [getSteamAppList_of_invalid env hv]
      simp [steamAppListFetch, hfetch, steamAppListCatch, hf]
    refine ⟨by rw [hg], ?_⟩
    simp [getSteamAppListHandler, hg]

/-- Witness for C3 at concrete inputs: a stale valid cache survives a
fetch failure. -/
theorem c3_stale_fallback_witness :
    (getSteamAppList ⟨CACHE_DURATION, some ⟨0, .valid [(7, "g")]⟩, .error "down"⟩).result
      = .ok [(7, "g")] ∧
    (getSteamAppList ⟨CACHE_DURATION, some ⟨0, .valid [(7, "g")]⟩, .error "down"⟩).fetchAttempted
      = true ∧
    (getSteamAppList ⟨CACHE_DURATION, some ⟨0, .valid [(7, "g")]⟩, .error "down"⟩).servedFromCache
      = true :=
  (c3_stale_fallback ⟨CACHE_DURATION, some ⟨0, .valid [(7, "g")]⟩, .error "down"⟩).1
    ⟨0, .valid [(7, "g")]⟩ [(7, "g")] "down" rfl (by simp) rfl rfl

/-- C8 counterexample: a FRESH but corrupt cache file (age `0 < 7` days,
reachable network) does NOT trigger a remote fetch — the lookup fails
with the parse error without ever calling `fetchSteamAppList`,
refuting the claim that a corrupt cache is treated as absent for the
purpose of deciding whether to fetch ("attempts a remote fetch
regardless of the file's age"). -/
theorem c8_counterexample :
    (getSteamAppList ⟨1000, some ⟨1000, .corrupt⟩, .ok [(1, "x")]⟩).fetchAttempted = false ∧
    (getSteamAppList ⟨1000, some ⟨1000, .corrupt⟩, .ok [(1, "x")]⟩).result
      = .error .parseError := by
  constructor <;> rfl

/-- C8 amended: freshness is decided by `mtime` alone, so a corrupt
cache file triggers a remote fetch only when it is also stale; a stale
corrupt cache does fetch, and on fetch failure the corrupt file cannot
serve as fallback (the lookup fails with a parse error); but a FRESH
corrupt cache fails the lookup immediately with no fetch attempt. -/
theorem c8_amended (env : CacheEnv) :
    (∀ f, env.cacheFile = some f → f.content = .corrupt →
      CACHE_DURATION ≤ env.now - f.mtime →
      (getSteamAppList env).fetchAttempted = true ∧
      (∀ m, env.fetchResult = .error m →
        (getSteamAppList env).result = .error .parseError)) ∧
    (∀ f, env.cacheFile = some f → f.content = .corrupt →
      env.now - f.mtime < CACHE_DURATION →
      (getSteamAppList env).fetchAttempted = false ∧
      (getSteamAppList env).result = .error .parseError) := by
  constructor
  · intro f hf hc hage
    have hv : isCacheValid env.now env.cacheFile = false := by
      rw [hf, isCacheValid_some]
      simp
      omega
    constructor
    · cases hfr : env.fetchResult with
      | ok d =>
        have hg : getSteamAppList env = ⟨.ok d, some ⟨env.now, .valid d⟩, true, false⟩ := by
          rw [getSteamAppList_of_invalid env hv]
          simp [steamAppListFetch, hfr]
        rw [hg]
      | error m =>
        have hg : getSteamAppList env = ⟨.error .parseError, some f, true, false⟩ := by
          rw [getSteamAppList_of_invalid env hv]
          simp [steamAppListFetch, hfr, steamAppListCatch, hf, hc]
        rw [hg]
    · intro m hfetch
      have hg : getSteamAppList env = ⟨.error .parseError, some f, true, false⟩ := by
        rw [getSteamAppList_of_invalid env hv]
        simp [steamAppListFetch, hfetch, steamAppListCatch, hf, hc]
      rw [hg]
  · intro f hf hc hage
    have hv : isCacheValid env.now env.cacheFile = true := by
      rw [hf, isCacheValid_some]
      simpa using hage
    have hg : getSteamAppList env = ⟨.error .parseError, some f, false, false⟩ := by
      rw [getSteamAppList_of_valid env hv]
      simp [steamAppListRead, hf, hc, steamAppListCatch]
    rw [hg]
    exact ⟨rfl, rfl⟩

/-- Witness for C8 (amended) at concrete inputs: a stale corrupt cache
triggers a fetch, and when the fetch fails the lookup fails. -/
theorem c8_amended_witness :
    (getSteamAppList ⟨CACHE_DURATION, some ⟨0, .corrupt⟩, .error "down"⟩).fetchAttempted
      = true ∧
    (getSteamAppList ⟨CACHE_DURATION, some ⟨0, .corrupt⟩, .error "down"⟩).result
      = .error .parseError := by
  have h := (c8_amended ⟨CACHE_DURATION, some ⟨0, .corrupt⟩, .error "down"⟩).1
    ⟨0, .corrupt⟩ rfl rfl (by simp)
  exact ⟨h.1, h.2 "down" rfl⟩

/-- C4 counterexample: with a stale cache and a successful fetch, the
returned data is freshly fetched (not read from the cache file), yet
the handler's `cached` flag is `true` — because `cached` is computed
by re-running `isCacheValid()` after the fetch has just overwritten
the cache file and renewed its mtime.  This refutes the claim that the
flag is `false` exactly when the data was freshly fetched. -/
theorem c4_counterexample :
    (getSteamAppList ⟨CACHE_DURATION, some ⟨0, .valid [(1, "old")]⟩, .ok [(2, "new")]⟩).servedFromCache
      = false ∧
    (getSteamAppList ⟨CACHE_DURATION, some ⟨0, .valid [(1, "old")]⟩, .ok [(2, "new")]⟩).fetchAttempted
      = true ∧
    (getSteamAppListHandler ⟨CACHE_DURATION, some ⟨0, .valid [(1, "old")]⟩, .ok [(2, "new")]⟩).apps
      = [(2, "new")] ∧
    (getSteamAppListHandler ⟨CACHE_DURATION, some ⟨0, .valid [(1, "old")]⟩, .ok [(2, "new")]⟩).cached
      = true := by
  refine ⟨rfl, rfl, rfl, ?_⟩
  rfl

/-- C4 amended: the `cached` flag of a successful lookup reports
whether the cache file is fresh when `isCacheValid()` is re-evaluated
after the lookup, not where the data came from: it is `true` for a
fresh cache read, `true` as well for freshly fetched-and-persisted
data (the write renews the file's mtime), and `false` for the
stale-cache fallback even though that data came from the cache. -/
theorem c4_amended (env : CacheEnv) :
    (∀ f d, env.cacheFile = some f → env.now - f.mtime < CACHE_DURATION →
      f.content = .valid d →
      (getSteamAppList env).servedFromCache = true ∧
      (getSteamAppListHandler env).cached = true) ∧
    (∀ d, isCacheValid env.now env.cacheFile = false → env.fetchResult = .ok d →
      (getSteamAppList env).servedFromCache = false ∧
      (getSteamAppListHandler env).cached = true) ∧
    (∀ f d m, env.cacheFile = some f → CACHE_DURATION ≤ env.now - f.mtime →
      f.content = .valid d → env.fetchResult = .error m →
      (getSteamAppList env).servedFromCache = true ∧
      (getSteamAppListHandler env).cached = false) := by
  refine ⟨?_, ?_, ?_⟩
  · intro f d hf hage hc
    have hv : isCacheValid env.now env.cacheFile = true := by
      rw [hf, isCacheValid_some]
      simpa using hage
    have hg : getSteamAppList env = ⟨.ok d, some f, false, true⟩ := by
      rw [getSteamAppList_of_valid env hv]
      simp [steamAppListRead, hf, hc]
    constructor
    · rw [hg]
    · simp [getSteamAppListHandler, hg, isCacheValid_some, hage]
  · intro d hv hfetch
    have hg : getSteamAppList env = ⟨.ok d, some ⟨env.now, .valid d⟩, true, false⟩ := by
      rw [getSteamAppList_of_invalid env hv]
      simp [steamAppListFetch, hfetch]
    constructor
    · rw [hg]
    · simp [getSteamAppListHandler, hg, isCacheValid_some, CACHE_DURATION]
  · intro f d m hf hage hc hfetch
    have hv : isCacheValid env.now env.cacheFile = false := by
      rw [hf, isCacheValid_some]
      simp
      omega
    have hg : getSteamAppList env = ⟨.ok d, some f, true, true⟩ := by
      rw [getSteamAppList_of_invalid env hv]
      simp [steamAppListFetch, hfetch, steamAppListCatch, hf, hc]
    constructor
    · rw [hg]
    · simp [getSteamAppListHandler, hg, isCacheValid_some]
      omega

/-- Witness for C4 (amended) at concrete inputs: the stale-fallback
case serves cached data yet reports `cached = false`. -/
theorem c4_amended_witness :
    (getSteamAppList ⟨CACHE_DURATION, some ⟨0, .valid [(9, "s")]⟩, .error "down"⟩).servedFromCache
      = true ∧
    (getSteamAppListHandler ⟨CACHE_DURATION, some ⟨0, .valid [(9, "s")]⟩, .error "down"⟩).cached
      = false :=
  (c4_amended ⟨CACHE_DURATION, some ⟨0, .valid [(9, "s")]⟩, .error "down"⟩).2.2
    ⟨0, .valid [(9, "s")]⟩ [(9, "s")] "down" rfl (by simp) rfl rfl

/-! ## HTTP download promise (shared by `download-extract-fix` and
`download-bypass`)

The download promise issues `https.get(url)`.  A `301`/`302` response
triggers exactly one further `https.get` on the `Location` header and
that second response is piped to the file and resolved — its status
code is never inspected.  A first response that is neither a redirect
nor `200` rejects with ``Failed to download: <status>``.  Network
errors reject.  `get` abstracts the network: the reply each GET of a
URL produces.  `requests` records the URLs fetched, in order. -/

structure HttpResponse where
  statusCode : Nat
  location : String
  body : String
deriving DecidableEq, Repr

inductive HttpReply where
  | response (r : HttpResponse)
  | netError (msg : String)
deriving DecidableEq, Repr

structure DownloadRun where
  result : Except String String
  requests : List String
deriving Repr

/-- The download promise of `download-extract-fix` (the one in
`download-bypass` is verbatim identical). -/
def download (get : String → HttpReply) (url : String) : DownloadRun :=
  match get url with
  | .netError e => ⟨.error e, [url]⟩
  | .response r =>
    if r.statusCode = 302 ∨ r.statusCode = 301 then
      match get r.location with
      | .netError e => ⟨.error e, [url, r.location]⟩
      | .response r2 => ⟨.ok r2.body, [url, r.location]⟩
    else if r.statusCode ≠ 200 then
      ⟨.error ("Failed to download: " ++ toString r.statusCode), [url]⟩
    else
      ⟨.ok r.body, [url]⟩

/-- The concrete network used by the C5 counterexample: the first URL
redirects (302) to a second URL whose response is `404`. -/
def c5get : String → HttpReply :=
  fun u =>
    if u = "https://a.example/f.zip" then
      .response ⟨302, "https://b.example/f.zip", ""⟩
    else
      .response ⟨404, "", "not found"⟩

/-- C5 counterexample: after the single redirect the second response
has status `404`, yet the download RESOLVES with that response's body
as the downloaded content — the status of the post-redirect response
is never checked, refuting the claim that any final status other than
`200` (also after the redirect) fails with an error carrying the
status code. -/
theorem c5_counterexample :
    c5get "https://b.example/f.zip" = .response ⟨404, "", "not found"⟩ ∧
    (download c5get "https://a.example/f.zip").result = .ok "not found" ∧
    (download c5get "https://a.example/f.zip").requests
      = ["https://a.example/f.zip", "https://b.example/f.zip"] := by
  refine ⟨?_, ?_, ?_⟩ <;> rfl

/-- C5 amended: on a `301`/`302` first response exactly one further
GET is issued to the `Location` value and the second response is final
(no further redirects are followed); the second response's body is
accepted as the download regardless of its status code; a non-`200`
status causes a `Failed to download: <status>` error only on the
first hop when that response is not a redirect. -/
theorem c5_amended (get : String → HttpReply) (url : String) (r r2 : HttpResponse) :
    (get url = .response r → (r.statusCode = 302 ∨ r.statusCode = 301) →
      get r.location = .response r2 →
      (download get url).requests = [url, r.location] ∧
      (download get url).result = .ok r2.body) ∧
    (get url = .response r → r.statusCode ≠ 302 → r.statusCode ≠ 301 →
      r.statusCode ≠ 200 →
      (download get url).result = .error ("Failed to download: " ++ toString r.statusCode) ∧
      (download get url).requests = [url]) ∧
    (get url = .response r → r.statusCode = 200 →
      (download get url).result = .ok r.body ∧
      (download get url).requests = [url]) := by
  refine ⟨?_, ?_, ?_⟩
  · intro h1 hred h2
    simp [download, h1, hred, h2]
  · intro h1 h302 h301 h200
    simp [download, h1, h302, h301, h200]
  · intro h1 h200
    simp [download, h1, h200]

/-- Witness for C5 (amended) at concrete inputs: a redirect followed by
a `200` is downloaded with exactly two GETs. -/
theorem c5_amended_witness :
    (download (fun u => if u = "https://a.example/g.zip" then
        .response ⟨301, "https://cdn.example/g.zip", ""⟩
      else
        .response ⟨200, "", "payload"⟩) "https://a.example/g.zip").requests
      = ["https://a.example/g.zip", "https://cdn.example/g.zip"] ∧
    (download (fun u => if u = "https://a.example/g.zip" then
        .response ⟨301, "https://cdn.example/g.zip", ""⟩
      else
        .response ⟨200, "", "payload"⟩) "https://a.example/g.zip").result
      = .ok "payload" :=
  (c5_amended (fun u => if u = "https://a.example/g.zip" then
        .response ⟨301, "https://cdn.example/g.zip", ""⟩
      else
        .response ⟨200, "", "payload"⟩) "https://a.example/g.zip"
      ⟨301, "https://cdn.example/g.zip", ""⟩ ⟨200, "", "payload"⟩).1
    (by simp) (Or.inr rfl) (by simp)

/-! ## Archive extraction strategy chain

`download-extract-fix` first tries the `extract-zip` library, then
7-Zip at four well-known paths, then WinRAR at four well-known paths.
A tool path is attempted only if `fs.existsSync` holds for it; a
thrown error records `lastError` and the loop continues; a success
breaks out.  If nothing succeeded the handler throws
``All extraction methods failed. Last error: <lastError>. Please
install 7-Zip or WinRAR.``  The environment gives each strategy's
outcome: `extractZipResult` for the library and, for each candidate
tool path, whether the executable exists and what running it would
yield. -/

inductive Strategy where
  | extractZip
  | sevenZip (path : String)
  | winrar (path : String)
deriving DecidableEq, Repr

structure Tool where
  path : String
  pathExists : Bool
  toolResult : Except String Unit
deriving Repr

structure ExtractEnv where
  extractZipResult : Except String Unit
  sevenZipTools : List Tool
  winrarTools : List Tool

/-- State of the chain after some attempts: the `extractionSuccess`
flag, the `lastError` variable, and the trace of strategies actually
attempted (in order, with each one's outcome). -/
structure ChainResult where
  success : Bool
  lastError : Option String
  attempted : List (Strategy × Except String Unit)

/-- One `for (const p of paths) { if (existsSync(p)) { try ... } }`
loop, entered with the current `lastError`. -/
def runTools (mk : String → Strategy) :
    List Tool → Option String → ChainResult
  | [], le => ⟨false, le, []⟩
  | t :: rest, le =>
    if t.pathExists then
      match t.toolResult with
      | .ok _ => ⟨true, le, [(mk t.path, .ok ())]⟩
      | .error e =>
        let r := runTools mk rest (some e)
        ⟨r.success, r.lastError, (mk t.path, .error e) :: r.attempted⟩
    else
      runTools mk rest le

/-- The full chain: `extract-zip`, then the 7-Zip loop (only if not
yet successful), then the WinRAR loop (only if still not successful). -/
def extractChain (env : ExtractEnv) : ChainResult :=
  match env.extractZipResult with
  | .ok _ => ⟨true, none, [(.extractZip, .ok ())]⟩
  | .error e =>
    let r7 := runTools .sevenZip env.sevenZipTools (some e)
    if r7.success then
      ⟨true, r7.lastError, (.extractZip, .error e) :: r7.attempted⟩
    else
      let rw := runTools .winrar env.winrarTools r7.lastError
      ⟨rw.success, rw.lastError, (.extractZip, .error e) :: (r7.attempted ++ rw.attempted)⟩

/-- The message of the error thrown when no strategy succeeded. -/
def extractionErrorMessage (lastError : Option String) : String :=
  "All extraction methods failed. Last error: " ++ lastError.getD "Unknown error"
    ++ ". Please install 7-Zip or WinRAR."

/-- Outcome of the extraction phase: `ok` on first strategy success,
otherwise the thrown aggregated error. -/
def extractResult (env : ExtractEnv) : Except String Unit :=
  let r := extractChain env
  if r.success then .ok () else .error (extractionErrorMessage r.lastError)

/-! Specification-side description of the chain, written from the
spec's words for the refinement statement: the AVAILABLE strategies
are the library followed by the existing tool executables in listed
order; the chain should attempt exactly the prefix of that list up to
and including the first success. -/

def availableStrategies (env : ExtractEnv) : List (Strategy × Except String Unit) :=
  (.extractZip, env.extractZipResult) ::
    ((env.sevenZipTools.filter Tool.pathExists).map
        (fun t => (.sevenZip t.path, t.toolResult)) ++
      (env.winrarTools.filter Tool.pathExists).map
        (fun t => (.winrar t.path, t.toolResult)))

def stratOk (p : Strategy × Except String Unit) : Bool :=
  match p.2 with
  | .ok _ => true
  | .error _ => false

/-- The prefix of a strategy list up to and including its first
success (the whole list when nothing succeeds). -/
def takeThroughFirstOk : List (Strategy × Except String Unit) →
    List (Strategy × Except String Unit)
  | [] => []
  | p :: rest => if stratOk p then [p] else p :: takeThroughFirstOk rest

/-- The error messages of the failed attempts of a trace, in order. -/
def traceErrors (l : List (Strategy × Except String Unit)) : List String :=
  l.filterMap (fun p =>
    match p.2 with
    | .error e => some e
    | .ok _ => none)

/-! ### Behaviour of the tool loops -/

theorem runTools_attempted (mk : String → Strategy) (tools : List Tool)
    (le : Option String) :
    (runTools mk tools le).attempted
      = takeThroughFirstOk ((tools.filter Tool.pathExists).map
          (fun t => (mk t.path, t.toolResult))) := by
  induction tools generalizing le with
  | nil => rfl
  | cons t rest ih =>
    cases hex : t.pathExists with
    | true =>
      cases hres : t.toolResult with
      | ok u =>
        cases u
        simp [runTools, hex, hres, List.filter_cons, takeThroughFirstOk, stratOk]
      | error e =>
        simp [runTools, hex, hres, List.filter_cons, takeThroughFirstOk, stratOk, ih]
    | false =>
      simp [runTools, hex, List.filter_cons, ih]

theorem runTools_success (mk : String → Strategy) (tools : List Tool)
    (le : Option String) :
    (runTools mk tools le).success
      = ((tools.filter Tool.pathExists).map
          (fun t => (mk t.path, t.toolResult))).any stratOk := by
  induction tools generalizing le with
  | nil => rfl
  | cons t rest ih =>
    cases hex : t.pathExists with
    | true =>
      cases hres : t.toolResult with
      | ok u =>
        cases u
        simp [runTools, hex, hres, List.filter_cons, stratOk]
      | error e =>
        simp [runTools, hex, hres, List.filter_cons, stratOk, ih]
    | false =>
      simp [runTools, hex, List.filter_cons, ih]

theorem runTools_lastError (mk : String → Strategy) (tools : List Tool)
    (le : Option String) :
    (runTools mk tools le).lastError
      = (le.toList ++ traceErrors (runTools mk tools le).attempted).getLast? := by
  induction tools generalizing le with
  | nil =>
    cases le <;> simp [runTools, traceErrors]
  | cons t rest ih =>
    cases hex : t.pathExists with
    | true =>
      cases hres : t.toolResult with
      | ok u =>
        cases u
        cases le <;> simp [runTools, hex, hres, traceErrors]
      | error e =>
        have h := ih (some e)
        simp only [runTools, hex, hres] at h ⊢
        simp only [h, traceErrors, List.filterMap_cons]
        cases le <;> simp [Option.toList, List.getLast?_append, traceErrors]
    | false =>
      simp [runTools, hex, ih]

theorem getLast?_toList_append (a b : List String) :
    ((a.getLast?).toList ++ b).getLast? = (a ++ b).getLast? := by
  simp only [List.getLast?_append]
  cases h : a.getLast? <;> simp [h]

theorem takeThroughFirstOk_cons_err (s : Strategy) (e : String)
    (l : List (Strategy × Except String Unit)) :
    takeThroughFirstOk ((s, .error e) :: l) = (s, .error e) :: takeThroughFirstOk l := by
  simp [takeThroughFirstOk, stratOk]

theorem takeThroughFirstOk_all_of_not_any
    (l : List (Strategy × Except String Unit)) (h : l.any stratOk = false) :
    takeThroughFirstOk l = l := by
  induction l with
  | nil => rfl
  | cons p rest ih =>
    simp only [List.any_cons, Bool.or_eq_false_iff] at h
    simp [takeThroughFirstOk, h.1, ih h.2]

theorem takeThroughFirstOk_append_of_any
    (a b : List (Strategy × Except String Unit)) (h : a.any stratOk = true) :
    takeThroughFirstOk (a ++ b) = takeThroughFirstOk a := by
  induction a with
  | nil => simp at h
  | cons p rest ih =>
    cases hp : stratOk p with
    | true => simp [takeThroughFirstOk, hp]
    | false =>
      simp only [List.any_cons, hp, Bool.false_or] at h
      simp [takeThroughFirstOk, hp, ih h]

theorem takeThroughFirstOk_append_of_not_any
    (a b : List (Strategy × Except String Unit)) (h : a.any stratOk = false) :
    takeThroughFirstOk (a ++ b) = a ++ takeThroughFirstOk b := by
  induction a with
  | nil => rfl
  | cons p rest ih =>
    simp only [List.any_cons, Bool.or_eq_false_iff] at h
    simp [takeThroughFirstOk, h.1, ih h.2]

/-- C6: the extraction strategies are attempted strictly in order —
the library first, then the existing 7-Zip executables, then the
existing WinRAR executables; the trace of attempted strategies is
exactly the prefix of the available strategies up to and including the
first one that succeeds (a failure never stops the chain, a success
stops it immediately); the chain succeeds iff some available strategy
succeeds; and when every one fails (in particular when no external
tool exists at any known path) the phase throws the aggregated error
built from the LAST recorded strategy error together with the hint to
install 7-Zip or WinRAR. -/
theorem c6_extraction_chain (env : ExtractEnv) :
    (extractChain env).attempted = takeThroughFirstOk (availableStrategies env) ∧
    (extractChain env).success = (availableStrategies env).any stratOk ∧
    ((extractChain env).success = false →
      extractResult env
        = .error ("All extraction methods failed. Last error: "
            ++ ((traceErrors (extractChain env).attempted).getLast?.getD "Unknown error")
            ++ ". Please install 7-Zip or WinRAR.")) := by
  cases hez : env.extractZipResult with
  | ok u =>
    cases u
    refine ⟨?_, ?_, ?_⟩
    · simp [extractChain, hez, availableStrategies, takeThroughFirstOk, stratOk]
    · simp [extractChain, hez, availableStrategies, stratOk]
    · intro h
      simp [extractChain, hez] at h
  | error e =>
    have h7a := runTools_attempted Strategy.sevenZip env.sevenZipTools (some e)
    have h7s := runTools_success Strategy.sevenZip env.sevenZipTools (some e)
    have h7l := runTools_lastError Strategy.sevenZip env.sevenZipTools (some e)
    have hA : availableStrategies env
        = (Strategy.extractZip, Except.error e) ::
          ((env.sevenZipTools.filter Tool.pathExists).map
              (fun t => (Strategy.sevenZip t.path, t.toolResult)) ++
            (env.winrarTools.filter Tool.pathExists).map
              (fun t => (Strategy.winrar t.path, t.toolResult))) := by
      simp [availableStrategies, hez]
    cases h7 : (runTools Strategy.sevenZip env.sevenZipTools (some e)).success with
    | true =>
      have hc : extractChain env
          = ⟨true, (runTools Strategy.sevenZip env.sevenZipTools (some e)).lastError,
              (Strategy.extractZip, Except.error e)
                :: (runTools Strategy.sevenZip env.sevenZipTools (some e)).attempted⟩ := by
        simp [extractChain, hez, h7]
      refine ⟨?_, ?_, ?_⟩
      · rw [hc, hA, takeThroughFirstOk_cons_err,
          takeThroughFirstOk_append_of_any _ _ (h7s.symm.trans h7), ← h7a]
      · rw [hc, hA]
        simp only [List.any_cons, List.any_append, h7s.symm.trans h7]
        simp [stratOk]
      · intro h
        rw [hc] at h
        simp at h
    | false =>
      have hwa := runTools_attempted Strategy.winrar env.winrarTools
        (runTools Strategy.sevenZip env.sevenZipTools (some e)).lastError
      have hws := runTools_success Strategy.winrar env.winrarTools
        (runTools Strategy.sevenZip env.sevenZipTools (some e)).lastError
      have hwl := runTools_lastError Strategy.winrar env.winrarTools
        (runTools Strategy.sevenZip env.sevenZipTools (some e)).lastError
      have h7any : ((env.sevenZipTools.filter Tool.pathExists).map
          (fun t => (Strategy.sevenZip t.path, t.toolResult))).any stratOk = false :=
        h7s.symm.trans h7
      have hc : extractChain env
          = ⟨(runTools Strategy.winrar env.winrarTools
                (runTools Strategy.sevenZip env.sevenZipTools (some e)).lastError).success,
              (runTools Strategy.winrar env.winrarTools
                (runTools Strategy.sevenZip env.sevenZipTools (some e)).lastError).lastError,
              (Strategy.extractZip, Except.error e)
                :: ((runTools Strategy.sevenZip env.sevenZipTools (some e)).attempted
                  ++ (runTools Strategy.winrar env.winrarTools
                      (runTools Strategy.sevenZip env.sevenZipTools (some e)).lastError).attempted)⟩ := by
        simp [extractChain, hez, h7]
      refine ⟨?_, ?_, ?_⟩
      · rw [hc, hA, takeThroughFirstOk_cons_err,
          takeThroughFirstOk_append_of_not_any _ _ h7any]
        show (Strategy.extractZip, Except.error e)
            :: ((runTools Strategy.sevenZip env.sevenZipTools (some e)).attempted
              ++ (runTools Strategy.winrar env.winrarTools
                  (runTools Strategy.sevenZip env.sevenZipTools (some e)).lastError).attempted)
          = _
        rw [h7a, hwa, takeThroughFirstOk_all_of_not_any _ h7any]
      · rw [hc, hA]
        simp only [List.any_cons, List.any_append, h7any, ← hws]
        simp [stratOk]
      · intro hfail
        have hfail2 : (runTools Strategy.winrar env.winrarTools
            (runTools Strategy.sevenZip env.sevenZipTools (some e)).lastError).success
              = false := by
          rw [hc] at hfail
          exact hfail
        have hres : extractResult env = .error (extractionErrorMessage
            (runTools Strategy.winrar env.winrarTools
              (runTools Strategy.sevenZip env.sevenZipTools (some e)).lastError).lastError) := by
          simp [extractResult, hc, hfail2]
        have hlast : (runTools Strategy.winrar env.winrarTools
            (runTools Strategy.sevenZip env.sevenZipTools (some e)).lastError).lastError
            = (e :: (traceErrors (runTools Strategy.sevenZip env.sevenZipTools (some e)).attempted
                ++ traceErrors (runTools Strategy.winrar env.winrarTools
                    (runTools Strategy.sevenZip env.sevenZipTools (some e)).lastError).attempted)).getLast? := by
          rw [hwl, h7l]
          simp only [Option.toList_some, List.singleton_append]
          rw [getLast?_toList_append]
          simp
        rw [hres, hc, hlast]
        simp [extractionErrorMessage, traceErrors, List.filterMap_cons, List.filterMap_append]

/-- Witness for C6 at concrete inputs: `extract-zip` fails, the first
7-Zip path does not exist, the second exists and fails, WinRAR exists
and fails; the chain attempts exactly the available strategies in
order and throws the message built from the last error. -/
theorem c6_extraction_chain_witness :
    (extractChain ⟨.error "bad zip",
        [⟨"C:\\Program Files\\7-Zip\\7z.exe", false, .ok ()⟩,
          ⟨"C:\\Program Files (x86)\\7-Zip\\7z.exe", true, .error "7z broke"⟩],
        [⟨"C:\\Program Files\\WinRAR\\WinRAR.exe", true, .error "rar broke"⟩]⟩).attempted
      = takeThroughFirstOk (availableStrategies ⟨.error "bad zip",
        [⟨"C:\\Program Files\\7-Zip\\7z.exe", false, .ok ()⟩,
          ⟨"C:\\Program Files (x86)\\7-Zip\\7z.exe", true, .error "7z broke"⟩],
        [⟨"C:\\Program Files\\WinRAR\\WinRAR.exe", true, .error "rar broke"⟩]⟩) ∧
    extractResult ⟨.error "bad zip",
        [⟨"C:\\Program Files\\7-Zip\\7z.exe", false, .ok ()⟩,
          ⟨"C:\\Program Files (x86)\\7-Zip\\7z.exe", true, .error "7z broke"⟩],
        [⟨"C:\\Program Files\\WinRAR\\WinRAR.exe", true, .error "rar broke"⟩]⟩
      = .error "All extraction methods failed. Last error: rar broke. Please install 7-Zip or WinRAR." := by
  refine ⟨(c6_extraction_chain _).1, ?_⟩
  have h := (c6_extraction_chain ⟨.error "bad zip",
      [⟨"C:\\Program Files\\7-Zip\\7z.exe", false, .ok ()⟩,
        ⟨"C:\\Program Files (x86)\\7-Zip\\7z.exe", true, .error "7z broke"⟩],
      [⟨"C:\\Program Files\\WinRAR\\WinRAR.exe", true, .error "rar broke"⟩]⟩).2.2 rfl
  rw [h]
  rfl

/-! ## Directory trees, the install-source resolver and the recursive copy

A directory's contents are a list of named entries (`readdirSync`
order); an entry is a file (with its contents) or a subdirectory.
`strContains s sub` models JavaScript's `s.includes(sub)`. -/

inductive FSEntry where
  | file (content : String)
  | dir (entries : List (String × FSEntry))
deriving Repr

def isDirE : FSEntry → Bool
  | .dir _ => true
  | .file _ => false

/-- First entry with the given name (names are unique in a real
directory listing). -/
def lookupEntry (es : List (String × FSEntry)) (name : String) : Option FSEntry :=
  match es.find? (fun p => p.1 == name) with
  | some p => some p.2
  | none => none

def strContainsAux (pat : List Char) : List Char → Bool
  | [] => pat.isEmpty
  | c :: rest => pat.isPrefixOf (c :: rest) || strContainsAux pat rest

/-- `s.includes(sub)`. -/
def strContains (s sub : String) : Bool :=
  strContainsAux sub.data s.data

/-- The appID-folder resolution of `download-extract-fix`: prefer the
direct child directory named exactly `appID`
(`existsSync && isDirectory`); otherwise take the first child
directory whose name contains `appID` as a substring
(`contents.find(...)`); otherwise use the extraction root itself.
Returns the chosen child's name (`none` meaning the root) and the
chosen source folder's entries. -/
def resolveSource (entries : List (String × FSEntry)) (appID : String) :
    Option String × List (String × FSEntry) :=
  match lookupEntry entries appID with
  | some (.dir sub) => (some appID, sub)
  | _ =>
    match entries.find? (fun p => isDirE p.2 && strContains p.1 appID) with
    | some (n, .dir sub) => (some n, sub)
    | _ => (none, entries)

/-- Overwrite-or-append of one directory entry (`copyFileSync`
replaces an existing file; `mkdirSync` adds a missing directory). -/
def setEntry : List (String × FSEntry) → String → FSEntry → List (String × FSEntry)
  | [], n, e => [(n, e)]
  | p :: rest, n, e => if p.1 == n then (n, e) :: rest else p :: setEntry rest n e

/-- `copyRecursive(src, dest)`: directories are created when absent
and merged recursively, files are copied over, replacing an existing
file of the same name. -/
def copyRecursive : List (String × FSEntry) → List (String × FSEntry) →
    List (String × FSEntry)
  | [], dest => dest
  | (n, .file c) :: rest, dest => copyRecursive rest (setEntry dest n (.file c))
  | (n, .dir sub) :: rest, dest =>
    copyRecursive rest (setEntry dest n (.dir (copyRecursive sub
      (match lookupEntry dest n with
        | some (.dir d) => d
        | _ => []))))

/-! ### The resolver properties -/

theorem isPrefixOf_self (l : List Char) : l.isPrefixOf l = true := by
  induction l with
  | nil => rfl
  | cons c rest ih => simp [List.isPrefixOf, ih]

theorem strContains_self (s : String) : strContains s s = true := by
  cases h : s.data with
  | nil => simp [strContains, strContainsAux, h]
  | cons c rest => simp [strContains, strContainsAux, h, isPrefixOf_self]

theorem find?_key_of_mem_of_nodup (es : List (String × FSEntry)) (k : String)
    (v : FSEntry) (hnd : (es.map Prod.fst).Nodup) (hm : (k, v) ∈ es) :
    es.find? (fun p => p.1 == k) = some (k, v) := by
  induction es with
  | nil => cases hm
  | cons p rest ih =>
    rcases List.mem_cons.mp hm with he | hm2
    · rw [← he]
      exact List.find?_cons_of_pos rest (by simp)
    · have hnd2 : p.1 ∉ rest.map Prod.fst ∧ (rest.map Prod.fst).Nodup :=
        List.nodup_cons.mp hnd
      have hne : ¬ (p.1 == k) = true := by
        intro hbe
        have hk : k ∈ rest.map Prod.fst :=
          List.mem_map.mpr ⟨(k, v), hm2, rfl⟩
        exact hnd2.1 ((eq_of_beq hbe) ▸ hk)
      rw [List.find?_cons_of_neg rest hne]
      exact ih hnd2.2 hm2

theorem lookupEntry_of_mem (es : List (String × FSEntry)) (k : String)
    (v : FSEntry) (hnd : (es.map Prod.fst).Nodup) (hm : (k, v) ∈ es) :
    lookupEntry es k = some v := by
  rw [lookupEntry, find?_key_of_mem_of_nodup es k v hnd hm]

theorem lookupEntry_mem (es : List (String × FSEntry)) (k : String) (v : FSEntry)
    (h : lookupEntry es k = some v) : (k, v) ∈ es := by
  rw [lookupEntry] at h
  cases hf : es.find? (fun p => p.1 == k) with
  | none => rw [hf] at h; cases h
  | some p =>
    rw [hf] at h
    have hb : (p.1 == k) = true := by simpa using List.find?_some hf
    have hp1 : p.1 = k := eq_of_beq hb
    have hpm := List.mem_of_find?_eq_some hf
    have : p = (k, v) := by
      cases h
      calc p = (p.1, p.2) := rfl
        _ = (k, p.2) := by rw [hp1]
    exact this ▸ hpm

/-- C7: with distinct entry names (true of any real directory
listing), the install source resolves to the direct child directory
named exactly `appID` when one exists; otherwise to the first child
directory whose name contains `appID` as a substring when one exists;
otherwise to the extraction root itself. -/
theorem c7_install_resolver (entries : List (String × FSEntry)) (appID : String)
    (hnd : (entries.map Prod.fst).Nodup) :
    (∀ sub, (appID, FSEntry.dir sub) ∈ entries →
      resolveSource entries appID = (some appID, sub)) ∧
    ((∀ sub, (appID, FSEntry.dir sub) ∉ entries) →
      ∀ n e, entries.find? (fun p => isDirE p.2 && strContains p.1 appID) = some (n, e) →
        ∃ sub, e = .dir sub ∧ resolveSource entries appID = (some n, sub)) ∧
    (entries.find? (fun p => isDirE p.2 && strContains p.1 appID) = none →
      resolveSource entries appID = (none, entries)) := by
  refine ⟨?_, ?_, ?_⟩
  · intro sub hm
    have hl := lookupEntry_of_mem entries appID (.dir sub) hnd hm
    rw [resolveSource, hl]
  · intro hno n e hf
    have hdir : isDirE e = true := by
      have := List.find?_some hf
      simp only [Bool.and_eq_true] at this
      exact this.1
    cases e with
    | file c => cases hdir
    | dir sub =>
      refine ⟨sub, rfl, ?_⟩
      cases hl : lookupEntry entries appID with
      | none => rw [resolveSource, hl, hf]
      | some v =>
        cases v with
        | file c => rw [resolveSource, hl, hf]
        | dir s => exact absurd (lookupEntry_mem entries appID (.dir s) hl) (hno s)
  · intro hf
    cases hl : lookupEntry entries appID with
    | none => rw [resolveSource, hl, hf]
    | some v =>
      cases v with
      | file c => rw [resolveSource, hl, hf]
      | dir s =>
        exfalso
        have hm := lookupEntry_mem entries appID (.dir s) hl
        have := (List.find?_eq_none.mp hf) (appID, .dir s) hm
        simp only [Bool.and_eq_true] at this
        exact this ⟨rfl, strContains_self appID⟩

/-- Witness for C7 at concrete inputs (the spec's own example): among
children `440_fix` and `other`, identifier `440` resolves to the
`440_fix` child by substring match. -/
theorem c7_install_resolver_witness :
    resolveSource [("440_fix", .dir [("x.dll", .file "A")]), ("other", .dir [])] "440"
      = (some "440_fix", [("x.dll", FSEntry.file "A")]) := by
  obtain ⟨sub, hsub, hres⟩ :=
    (c7_install_resolver [("440_fix", .dir [("x.dll", .file "A")]), ("other", .dir [])]
        "440" (by simp)).2.1
      (by
        intro sub h
        rcases List.mem_cons.mp h with he | h2
        · have h40 : ("440" : String) = "440_fix" := congrArg Prod.fst he
          exact absurd h40 (by decide)
        · rcases List.mem_cons.mp h2 with he2 | h3
          · have h40 : ("440" : String) = "other" := congrArg Prod.fst he2
            exact absurd h40 (by decide)
          · cases h3)
      "440_fix" (.dir [("x.dll", .file "A")]) (by rfl)
  cases hsub
  exact hres

/-! ## The `download-extract-fix` pipeline

One pipeline run: create the temp workspace (`online-fix-<timestamp>`
under the OS temp dir), download the archive into it, run the
extraction chain, resolve the install source, copy it recursively
into the target folder, and on the success path ONLY, call
`deleteFolderRecursive(tempDir)` before returning.  The `catch`
branch returns `{success: false, error}` without any cleanup, so the
state after a failed run keeps the workspace on disk.
`extractedEntries` abstracts the contents the archive unpacks to
(when extraction succeeds); `targetFolder` is the state of the
destination directory at the start of the run. -/

structure PipeEnv where
  get : String → HttpReply
  url : String
  appID : String
  fileName : String
  extractEnv : ExtractEnv
  extractedEntries : List (String × FSEntry)
  targetFolder : List (String × FSEntry)

structure PipeResult where
  success : Bool
  message : String
deriving DecidableEq, Repr

/-- Disk state visible after a run: whether the temp workspace still
exists, and the contents of the destination folder. -/
structure PipeState where
  tempDirExists : Bool
  target : List (String × FSEntry)

def downloadExtractFix (env : PipeEnv) : PipeResult × PipeState :=
  match (download env.get env.url).result with
  | .error e => (⟨false, e⟩, ⟨true, env.targetFolder⟩)
  | .ok _ =>
    match extractResult env.extractEnv with
    | .error e => (⟨false, e⟩, ⟨true, env.targetFolder⟩)
    | .ok _ =>
      (⟨true, "Fix extracted successfully!"⟩,
        ⟨false,
          copyRecursive (resolveSource env.extractedEntries env.appID).2 env.targetFolder⟩)

/-- C1 counterexample: a run whose download fails with a network
error returns a failure result and leaves the temp workspace ON disk
— `deleteFolderRecursive` is reached only on the success path, so the
claim that the workspace is removed on every exit path is false. -/
theorem c1_counterexample :
    (downloadExtractFix ⟨fun _ => .netError "ECONNRESET", "https://host.example/fix.zip",
        "440", "fix.zip", ⟨.ok (), [], []⟩, [], []⟩).1.success = false ∧
    (downloadExtractFix ⟨fun _ => .netError "ECONNRESET", "https://host.example/fix.zip",
        "440", "fix.zip", ⟨.ok (), [], []⟩, [], []⟩).2.tempDirExists = true := by
  exact ⟨rfl, rfl⟩

/-- C1 amended: the temp workspace is removed exactly when the run
succeeds; after any failure that occurs once the workspace has been
created (download error, extraction failure), the workspace remains
on disk. -/
theorem c1_amended (env : PipeEnv) :
    (downloadExtractFix env).2.tempDirExists = !((downloadExtractFix env).1.success) := by
  cases hd : (download env.get env.url).result with
  | error e => simp [downloadExtractFix, hd]
  | ok b =>
    cases hx : extractResult env.extractEnv with
    | error e => simp [downloadExtractFix, hd, hx]
    | ok u => simp [downloadExtractFix, hd, hx]

/-- C10: when the run fails before the copy phase — the download
fails, or the whole extraction chain fails — the destination folder
is left exactly as it started (the recursive copy runs only after a
successful extraction). -/
theorem c10_dest_untouched (env : PipeEnv) :
    (∀ e, (download env.get env.url).result = .error e →
      (downloadExtractFix env).1.success = false ∧
      (downloadExtractFix env).2.target = env.targetFolder) ∧
    ((extractChain env.extractEnv).success = false →
      (downloadExtractFix env).1.success = false ∧
      (downloadExtractFix env).2.target = env.targetFolder) := by
  constructor
  · intro e hd
    simp [downloadExtractFix, hd]
  · intro hx
    have hxr : extractResult env.extractEnv
        = .error (extractionErrorMessage (extractChain env.extractEnv).lastError) := by
      simp [extractResult, hx]
    cases hd : (download env.get env.url).result with
    | error e => simp [downloadExtractFix, hd]
    | ok b => simp [downloadExtractFix, hd, hxr]

/-- Witness for C10 at concrete inputs: all extraction strategies
fail (no tool installed) and the pre-existing destination contents
survive untouched. -/
theorem c10_dest_untouched_witness :
    (downloadExtractFix ⟨fun _ => .response ⟨200, "", "zipbytes"⟩,
        "https://host.example/fix.zip", "440", "fix.zip",
        ⟨.error "bad zip", [], []⟩, [], [("save.dat", .file "S")]⟩).1.success = false ∧
    (downloadExtractFix ⟨fun _ => .response ⟨200, "", "zipbytes"⟩,
        "https://host.example/fix.zip", "440", "fix.zip",
        ⟨.error "bad zip", [], []⟩, [], [("save.dat", .file "S")]⟩).2.target
      = [("save.dat", FSEntry.file "S")] :=
  (c10_dest_untouched ⟨fun _ => .response ⟨200, "", "zipbytes"⟩,
      "https://host.example/fix.zip", "440", "fix.zip",
      ⟨.error "bad zip", [], []⟩, [], [("save.dat", .file "S")]⟩).2 rfl

/-! ## Text decoding of `fetch-remote-file`

The handler buffers the HTTPS response, extracts a charset from the
`Content-Type` header with the regex `charset=([^;]+)` (case-
insensitive), trims and lowercases it, defaulting to `utf8`; if the
URL contains `online-fix.me` and the encoding (so computed) equals
`utf8` it switches to `windows-1251`; then decodes with `iconv`,
falling back to plain UTF-8 decoding of the raw bytes if that throws.
`iconvDecode`/`utf8Decode` abstract the iconv-lite library
(`none` = the decode call threw). -/

def startsWithCI : List Char → List Char → Bool
  | [], _ => true
  | _ :: _, [] => false
  | p :: ps, c :: cs => (p.toLower == c.toLower) && startsWithCI ps cs

/-- First match of `charset=([^;]+)` (case-insensitive) over a char
list: the capture group's characters. -/
def charsetCapture (pat : List Char) : List Char → Option (List Char)
  | [] => none
  | c :: rest =>
    if startsWithCI pat (c :: rest) then
      if ((c :: rest).drop pat.length).takeWhile (fun ch => ch != ';') = [] then
        charsetCapture pat rest
      else
        some (((c :: rest).drop pat.length).takeWhile (fun ch => ch != ';'))
    else
      charsetCapture pat rest

def findCharset (contentType : String) : Option String :=
  (charsetCapture "charset=".data contentType.data).map (fun l => ⟨l⟩)

def isWsChar (ch : Char) : Bool :=
  ch == ' ' || ch == '\t' || ch == '\n' || ch == '\r'

/-- JavaScript `String.prototype.trim` (ASCII whitespace). -/
def jsTrim (s : String) : String :=
  ⟨((s.data.dropWhile isWsChar).reverse.dropWhile isWsChar).reverse⟩

/-- JavaScript `String.prototype.toLowerCase` (character-wise). -/
def jsToLower (s : String) : String :=
  ⟨s.data.map Char.toLower⟩

/-- The encoding selection of the `fetch-remote-file` handler. -/
def chooseEncoding (url : String) (contentTypeHeader : Option String) : String :=
  let contentType := contentTypeHeader.getD ""
  let encoding :=
    match findCharset contentType with
    | some c => jsToLower (jsTrim c)
    | none => "utf8"
  if strContains url "online-fix.me" && (encoding == "utf8") then
    "windows-1251"
  else
    encoding

structure DecodeEnv where
  iconvDecode : String → List Nat → Option String
  utf8Decode : List Nat → String

/-- The decode step of the `fetch-remote-file` handler. -/
def fetchRemoteFileText (denv : DecodeEnv) (url : String)
    (contentTypeHeader : Option String) (body : List Nat) : String :=
  match denv.iconvDecode (chooseEncoding url contentTypeHeader) body with
  | some s => s
  | none => denv.utf8Decode body

/-- C9 counterexample: the header `text/html; charset=utf8` DOES give
an explicit charset (`utf8`), yet for an `online-fix.me` URL the
handler still applies the `windows-1251` override, because the
override tests the computed encoding string rather than the absence
of a charset parameter.  This refutes the claim that the override is
applied only when no explicit charset is given. -/
theorem c9_counterexample :
    findCharset "text/html; charset=utf8" = some "utf8" ∧
    chooseEncoding "https://online-fix.me/page" (some "text/html; charset=utf8")
      = "windows-1251" := by
  exact ⟨rfl, rfl⟩

/-- C9 amended: the encoding is the trimmed, lowercased `charset=`
parameter when present, defaulting to `utf8`; the `windows-1251`
override for `online-fix.me` URLs applies whenever the computed
encoding equals `utf8` — i.e. when no charset is given, or when an
explicit charset normalises to exactly `utf8` (`utf-8` does not) —
and a decode failure falls back to the UTF-8 decoding of the raw
bytes. -/
theorem c9_amended (denv : DecodeEnv) (url : String) (ctHeader : Option String)
    (body : List Nat) :
    (findCharset (ctHeader.getD "") = none → strContains url "online-fix.me" = false →
      chooseEncoding url ctHeader = "utf8") ∧
    (findCharset (ctHeader.getD "") = none → strContains url "online-fix.me" = true →
      chooseEncoding url ctHeader = "windows-1251") ∧
    (∀ c, findCharset (ctHeader.getD "") = some c → jsToLower (jsTrim c) ≠ "utf8" →
      chooseEncoding url ctHeader = jsToLower (jsTrim c)) ∧
    (∀ c, findCharset (ctHeader.getD "") = some c → jsToLower (jsTrim c) = "utf8" →
      strContains url "online-fix.me" = true →
      chooseEncoding url ctHeader = "windows-1251") ∧
    (denv.iconvDecode (chooseEncoding url ctHeader) body = none →
      fetchRemoteFileText denv url ctHeader body = denv.utf8Decode body) := by
  refine ⟨?_, ?_, ?_, ?_, ?_⟩
  · intro hc hu
    simp [chooseEncoding, hc, hu]
  · intro hc hu
    simp [chooseEncoding, hc, hu]
  · intro c hc hne
    simp [chooseEncoding, hc, hne]
  · intro c hc he hu
    simp [chooseEncoding, hc, he, hu]
  · intro hdec
    simp [fetchRemoteFileText, hdec]

/-- Witness for C9 (amended) at concrete inputs: an explicit
`iso-8859-1` charset suppresses the `online-fix.me` override. -/
theorem c9_amended_witness :
    chooseEncoding "https://online-fix.me/news" (some "text/html; charset=ISO-8859-1")
      = "iso-8859-1" := by
  have h := (c9_amended ⟨fun _ _ => none, fun _ => ""⟩ "https://online-fix.me/news"
      (some "text/html; charset=ISO-8859-1") []).2.2.1 "ISO-8859-1" rfl (by decide)
  simpa using h

end OnlineFix
